import Mathlib

/-!
Verification development for the `asynts/lang` repository.

The repository contains two hand-written lexers for a small arithmetic
expression language (`calc/lexer.py` and `lang/lexer.py`) and a
shunting-yard parser (`lang/lexer.py`, class `Parser`).  This file gives a
shallow embedding of both modules: strings become `List Char`, the mutable
lexer object (`self._cursor`, `self._output`) becomes an explicit
`LexState`, Python exceptions become `Except`, and the recursive descent is
made total with a fuel parameter (the fuel chosen by the entry points is
large enough for every terminating run of the source).
-/

/-- ASCII digit test, embedding the Python regex `^[0-9]+` character class. -/
def isDigit (c : Char) : Bool := decide ('0' ≤ c) && decide (c ≤ '9')

/-- Identifier character test, embedding the regex `^[_a-z0-9]+` character class. -/
def isIdentChar (c : Char) : Bool :=
  c == '_' || (decide ('a' ≤ c) && decide (c ≤ 'z')) || isDigit c

/-- Whitespace character test, embedding the regex `^[ \t]+` character class. -/
def isSpaceTab (c : Char) : Bool := c == ' ' || c == '\t'

/-- Embedding of Python `str.startswith` on character lists. -/
def startsWith : List Char → List Char → Bool
  | _, [] => true
  | [], _ :: _ => false
  | a :: as, b :: bs => a == b && startsWith as bs

namespace Calc

/-- Lexical categories of `calc/lexer.py` (class `Category`). -/
inductive Category where
  | INTEGER
  | VARIABLE
  | INVOKE
  | OPEN
  | CLOSE
  | COMMA
  | PREFIX
  | INFIX
deriving DecidableEq, Repr

/-- Token record of `calc/lexer.py` (dataclass `Token`).  The category is an
`Option` because the source passes `None` as the category of the whitespace
pseudo-token that `_lex_whitespace` appends and immediately pops. -/
structure Token where
  offset : Nat
  category : Option Category
  value : List Char
deriving DecidableEq, Repr

/-- The located error raised by the calc lexer (`LexerError(offset, message)`). -/
structure LexerError where
  offset : Nat
  message : String
deriving DecidableEq, Repr

/-- The mutable lexer state of `calc/lexer.py` (`self._cursor`, `self._output`).
The input string is passed separately since it never changes. -/
structure LexState where
  cursor : Nat
  output : List Token
deriving DecidableEq, Repr

/-- Embedding of `Lexer._match`: append a token and advance the cursor when the
input at the cursor starts with the given string; otherwise leave the state
unchanged. -/
def matchTok (input : List Char) (s : List Char) (cat : Option Category)
    (st : LexState) : Bool × LexState :=
  if startsWith (input.drop st.cursor) s then
    (true, ⟨st.cursor + s.length, st.output ++ [⟨st.cursor, cat, s⟩]⟩)
  else
    (false, st)

/-- Embedding of `Lexer._regex` for the anchored character-class-plus regexes of
the source (`^[0-9]+`, `^[_a-z0-9]+`, `^[ \t]+`): the match, when nonempty, is
the longest run of characters satisfying `p` at the cursor. -/
def regexTok (input : List Char) (p : Char → Bool) (cat : Option Category)
    (st : LexState) : Bool × LexState :=
  if (input.drop st.cursor).takeWhile p = [] then (false, st)
  else
    (true, ⟨st.cursor + ((input.drop st.cursor).takeWhile p).length,
      st.output ++ [⟨st.cursor, cat, (input.drop st.cursor).takeWhile p⟩]⟩)

/-- Embedding of `Lexer._lex_whitespace`: match whitespace, then pop the token
that `_regex` appended (whitespace is never emitted). -/
def lexWhitespace (input : List Char) (st : LexState) : Bool × LexState :=
  match regexTok input isSpaceTab none st with
  | (true, st1) => (true, ⟨st1.cursor, st1.output.dropLast⟩)
  | (false, st1) => (false, st1)

/-- Embedding of `Lexer._lex_prefix` (the only calc prefix operator is `-`). -/
def lexPrefixOp (input : List Char) (st : LexState) : Bool × LexState :=
  matchTok input ['-'] (some Category.PREFIX) st

/-- Embedding of `Lexer._lex_infix`: try each operator of `'+-*/='` in order
(a failed `_match` leaves the state unchanged, so each next attempt continues
from `st`). -/
def lexInfixOp (input : List Char) (st : LexState) : Bool × LexState :=
  match matchTok input ['+'] (some Category.INFIX) st with
  | (true, st1) => (true, st1)
  | (false, _) =>
    match matchTok input ['-'] (some Category.INFIX) st with
    | (true, st1) => (true, st1)
    | (false, _) =>
      match matchTok input ['*'] (some Category.INFIX) st with
      | (true, st1) => (true, st1)
      | (false, _) =>
        match matchTok input ['/'] (some Category.INFIX) st with
        | (true, st1) => (true, st1)
        | (false, _) => matchTok input ['='] (some Category.INFIX) st

mutual

/-- Embedding of `Lexer._lex_value`.  The backup taken at entry copies the
output list (`self._output[:]`), so `_restore` returns to exactly the entry
state `st`; failed `_match`/`_regex` calls leave the state unchanged, so the
fall-through branches continue from `st` as well.  The `offset` used in the
parenthesis errors is the offset of the `(` token just appended, which equals
the cursor at the time it was matched. -/
def lexValue : Nat → List Char → LexState → Except LexerError (Bool × LexState)
  | 0, _, st => .error ⟨st.cursor, "fuel"⟩
  | fuel + 1, input, st =>
    match matchTok input ['('] (some Category.OPEN) st with
    | (true, st1) =>
      match lexExpression fuel input st1 with
      | .error e => .error e
      | .ok (false, _) => .error ⟨st.cursor, "expected expression"⟩
      | .ok (true, st2) =>
        match matchTok input [')'] (some Category.CLOSE) st2 with
        | (true, st3) => .ok (true, st3)
        | (false, _) => .error ⟨st.cursor, "missing closing parenthesis"⟩
    | (false, _) =>
      match regexTok input isDigit (some Category.INTEGER) st with
      | (true, st1) => .ok (true, st1)
      | (false, _) =>
        match regexTok input isIdentChar (some Category.INVOKE) st with
        | (true, st1) =>
          match lexWhitespace input st1 with
          | (_, stw) =>
            match matchTok input ['('] (some Category.OPEN) stw with
            | (true, st2) =>
              match lexArguments fuel input st2 with
              | .error e => .error e
              | .ok (_, st3) =>
                match matchTok input [')'] (some Category.CLOSE) st3 with
                | (true, st4) => .ok (true, st4)
                | (false, _) => .error ⟨stw.cursor, "missing closing parenthesis"⟩
            | (false, _) =>
              match regexTok input isIdentChar (some Category.VARIABLE) st with
              | (true, st5) => .ok (true, st5)
              | (false, _) => .ok (false, st)
        | (false, _) =>
          match regexTok input isIdentChar (some Category.VARIABLE) st with
          | (true, st5) => .ok (true, st5)
          | (false, _) => .ok (false, st)

/-- Embedding of the `while self._lex_prefix(): pass` loop of `_lex_term`. -/
def prefixLoop : Nat → List Char → LexState → LexState
  | 0, _, st => st
  | fuel + 1, input, st =>
    match lexPrefixOp input st with
    | (true, st1) => prefixLoop fuel input st1
    | (false, _) => st

/-- Embedding of `Lexer._lex_term`.  On value failure the calc lexer restores
the backup taken at entry (cursor and a copy of the output), i.e. returns the
entry state `st`. -/
def lexTerm : Nat → List Char → LexState → Except LexerError (Bool × LexState)
  | 0, _, st => .error ⟨st.cursor, "fuel"⟩
  | fuel + 1, input, st =>
    match lexValue fuel input ((lexWhitespace input (prefixLoop fuel input st)).2) with
    | .error e => .error e
    | .ok (false, _) => .ok (false, st)
    | .ok (true, st3) => .ok (true, st3)

/-- Embedding of the infix loop of `Lexer._lex_expression`: while an infix
operator matches, skip whitespace, require a term (else a located error at the
current cursor), skip whitespace, repeat. -/
def infixLoop : Nat → List Char → LexState → Except LexerError (Bool × LexState)
  | 0, _, st => .error ⟨st.cursor, "fuel"⟩
  | fuel + 1, input, st =>
    match lexInfixOp input st with
    | (true, st1) =>
      match lexTerm fuel input ((lexWhitespace input st1).2) with
      | .error e => .error e
      | .ok (false, st2) => .error ⟨st2.cursor, "expected expression"⟩
      | .ok (true, st2) => infixLoop fuel input ((lexWhitespace input st2).2)
    | (false, _) => .ok (true, st)

/-- Embedding of `Lexer._lex_expression`. -/
def lexExpression : Nat → List Char → LexState → Except LexerError (Bool × LexState)
  | 0, _, st => .error ⟨st.cursor, "fuel"⟩
  | fuel + 1, input, st =>
    match lexTerm fuel input ((lexWhitespace input st).2) with
    | .error e => .error e
    | .ok (false, st1) => .ok (false, st1)
    | .ok (true, st1) => infixLoop fuel input ((lexWhitespace input st1).2)

/-- Embedding of the comma loop of `Lexer._lex_arguments`: while a comma
matches, require an expression, else raise at the offset of the last emitted
token (the comma). -/
def argumentsLoop : Nat → List Char → LexState → Except LexerError (Bool × LexState)
  | 0, _, st => .error ⟨st.cursor, "fuel"⟩
  | fuel + 1, input, st =>
    match matchTok input [','] (some Category.COMMA) st with
    | (true, st1) =>
      match lexExpression fuel input st1 with
      | .error e => .error e
      | .ok (false, st2) =>
        .error ⟨(st2.output.getLastD ⟨0, none, []⟩).offset, "expected expression"⟩
      | .ok (true, st2) => argumentsLoop fuel input st2
    | (false, _) => .ok (true, st)

/-- Embedding of `Lexer._lex_arguments`. -/
def lexArguments : Nat → List Char → LexState → Except LexerError (Bool × LexState)
  | 0, _, st => .error ⟨st.cursor, "fuel"⟩
  | fuel + 1, input, st =>
    match lexExpression fuel input st with
    | .error e => .error e
    | .ok (false, st1) => .ok (false, st1)
    | .ok (true, st1) => argumentsLoop fuel input st1

end

/-- Fuel budget for the calc lexer; every call either consumes input or moves
down the fixed grammar chain, so linear fuel with a constant slack is enough
for every input. -/
def calcFuel (n : Nat) : Nat := 8 * n + 16

/-- Embedding of the module-level `lex` function: run `_lex_expression` from a
fresh state, then `finalize`, which raises `invalid syntax` at the cursor if
input remains and otherwise returns the collected tokens. -/
def lex (input : List Char) : Except LexerError (List Token) :=
  match lexExpression (calcFuel input.length) input ⟨0, []⟩ with
  | .error e => .error e
  | .ok (_, st) =>
    if st.cursor < input.length then .error ⟨st.cursor, "invalid syntax"⟩
    else .ok st.output

end Calc

namespace Lang

/-- Lexical categories of `lang/lexer.py` (class `Category`). -/
inductive Category where
  | INTEGER
  | INVOKE
  | VARIABLE
  | OPEN
  | CLOSE
  | COMMA
  | PREFIX
  | INFIX
  | POSTFIX
deriving DecidableEq, Repr

/-- Token record of `lang/lexer.py` (dataclass `Token`).  The category is an
`Option` because `_lex_value` first creates the identifier token with category
`None` and only later assigns `INVOKE` or `VARIABLE` to it. -/
structure Token where
  offset : Nat
  category : Option Category
  value : List Char
deriving DecidableEq, Repr

/-- The mutable lexer state of `lang/lexer.py` (`self._cursor`, `self._output`). -/
structure LexState where
  cursor : Nat
  output : List Token
deriving DecidableEq, Repr

/-- Embedding of `Lexer._match` of `lang/lexer.py` (identical to the calc one). -/
def matchTok (input : List Char) (s : List Char) (cat : Option Category)
    (st : LexState) : Bool × LexState :=
  if startsWith (input.drop st.cursor) s then
    (true, ⟨st.cursor + s.length, st.output ++ [⟨st.cursor, cat, s⟩]⟩)
  else
    (false, st)

/-- Embedding of `Lexer._regex` of `lang/lexer.py` (identical to the calc one). -/
def regexTok (input : List Char) (p : Char → Bool) (cat : Option Category)
    (st : LexState) : Bool × LexState :=
  let m := (input.drop st.cursor).takeWhile p
  if m = [] then (false, st)
  else (true, ⟨st.cursor + m.length, st.output ++ [⟨st.cursor, cat, m⟩]⟩)

/-- Embedding of the in-place assignment `self._output[-1].category = c`
of `lang/lexer.py`: rewrite the category of the last emitted token. -/
def setLastCategory : List Token → Option Category → List Token
  | [], _ => []
  | [t], c => [{ t with category := c }]
  | t :: ts, c => t :: setLastCategory ts c

/-- Embedding of `Lexer._lex_prefix` of `lang/lexer.py`: try `++`, `--`, `-`. -/
def lexPrefixOp (input : List Char) (st : LexState) : Bool × LexState :=
  let r1 := matchTok input ['+', '+'] (some Category.PREFIX) st
  if r1.1 then r1 else
  let r2 := matchTok input ['-', '-'] (some Category.PREFIX) st
  if r2.1 then r2 else
  matchTok input ['-'] (some Category.PREFIX) st

/-- Embedding of `Lexer._lex_infix` of `lang/lexer.py`: try each of `'+-*/'`. -/
def lexInfixOp (input : List Char) (st : LexState) : Bool × LexState :=
  let r1 := matchTok input ['+'] (some Category.INFIX) st
  if r1.1 then r1 else
  let r2 := matchTok input ['-'] (some Category.INFIX) st
  if r2.1 then r2 else
  let r3 := matchTok input ['*'] (some Category.INFIX) st
  if r3.1 then r3 else
  matchTok input ['/'] (some Category.INFIX) st

/-- Embedding of `Lexer._lex_postfix` of `lang/lexer.py`: try `++`, `--`. -/
def lexPostfixOp (input : List Char) (st : LexState) : Bool × LexState :=
  let r1 := matchTok input ['+', '+'] (some Category.POSTFIX) st
  if r1.1 then r1 else
  matchTok input ['-', '-'] (some Category.POSTFIX) st

mutual

/-- Embedding of `Lexer._lex_value` of `lang/lexer.py`.  The identifier is
first emitted with category `None`; on `(` the `(` token is popped again and
the identifier token already in the output is re-tagged `INVOKE` in place;
otherwise it is re-tagged `VARIABLE` in place.  The lang `LexerError` carries
no data, hence `Except Unit`. -/
def lexValue : Nat → List Char → LexState → Except Unit (Bool × LexState)
  | 0, _, _ => .error ()
  | fuel + 1, input, st =>
    match matchTok input ['('] (some Category.OPEN) st with
    | (true, st1) =>
      match lexExpression fuel input st1 with
      | .error e => .error e
      | .ok (false, _) => .error ()
      | .ok (true, st2) =>
        match matchTok input [')'] (some Category.CLOSE) st2 with
        | (true, st3) => .ok (true, st3)
        | (false, _) => .error ()
    | (false, _) =>
      match regexTok input isDigit (some Category.INTEGER) st with
      | (true, st1) => .ok (true, st1)
      | (false, _) =>
        match regexTok input isIdentChar none st with
        | (true, st1) =>
          match matchTok input ['('] (some Category.OPEN) st1 with
          | (true, st2) =>
            match lexArguments fuel input
                ⟨st2.cursor, setLastCategory st2.output.dropLast (some Category.INVOKE)⟩ with
            | .error e => .error e
            | .ok (_, st3) =>
              match matchTok input [')'] (some Category.CLOSE) st3 with
              | (true, st4) => .ok (true, st4)
              | (false, _) => .error ()
          | (false, _) =>
            .ok (true, ⟨st1.cursor, setLastCategory st1.output (some Category.VARIABLE)⟩)
        | (false, _) => .ok (false, st)

/-- Embedding of the `while self._lex_prefix(): pass` loop of `_lex_term`. -/
def prefixLoop : Nat → List Char → LexState → LexState
  | 0, _, st => st
  | fuel + 1, input, st =>
    match lexPrefixOp input st with
    | (true, st1) => prefixLoop fuel input st1
    | (false, _) => st

/-- Embedding of the `while self._lex_postfix(): pass` loop of `_lex_term`. -/
def postfixLoop : Nat → List Char → LexState → LexState
  | 0, _, st => st
  | fuel + 1, input, st =>
    match lexPostfixOp input st with
    | (true, st1) => postfixLoop fuel input st1
    | (false, _) => st

/-- Embedding of `Lexer._lex_term` of `lang/lexer.py`.  Note the source's
`_backup` stores a reference to `self._output` (not a copy), so `_restore`
only rewinds the cursor: tokens appended during the failed attempt stay in
the output list. -/
def lexTerm : Nat → List Char → LexState → Except Unit (Bool × LexState)
  | 0, _, _ => .error ()
  | fuel + 1, input, st =>
    let st1 := prefixLoop fuel input st
    match lexValue fuel input st1 with
    | .error e => .error e
    | .ok (false, st2) => .ok (false, ⟨st.cursor, st2.output⟩)
    | .ok (true, st2) => .ok (true, postfixLoop fuel input st2)

/-- Embedding of the infix loop of `Lexer._lex_expression` of `lang/lexer.py`. -/
def infixLoop : Nat → List Char → LexState → Except Unit (Bool × LexState)
  | 0, _, _ => .error ()
  | fuel + 1, input, st =>
    match lexInfixOp input st with
    | (true, st1) =>
      match lexTerm fuel input st1 with
      | .error e => .error e
      | .ok (false, _) => .error ()
      | .ok (true, st2) => infixLoop fuel input st2
    | (false, _) => .ok (true, st)

/-- Embedding of `Lexer._lex_expression` of `lang/lexer.py`. -/
def lexExpression : Nat → List Char → LexState → Except Unit (Bool × LexState)
  | 0, _, _ => .error ()
  | fuel + 1, input, st =>
    match lexTerm fuel input st with
    | .error e => .error e
    | .ok (false, st1) => .ok (false, st1)
    | .ok (true, st1) => infixLoop fuel input st1

/-- Embedding of the comma loop of `Lexer._lex_arguments` of `lang/lexer.py`. -/
def argumentsLoop : Nat → List Char → LexState → Except Unit (Bool × LexState)
  | 0, _, _ => .error ()
  | fuel + 1, input, st =>
    match matchTok input [','] (some Category.COMMA) st with
    | (true, st1) =>
      match lexExpression fuel input st1 with
      | .error e => .error e
      | .ok (false, _) => .error ()
      | .ok (true, st2) => argumentsLoop fuel input st2
    | (false, _) => .ok (true, st)

/-- Embedding of `Lexer._lex_arguments` of `lang/lexer.py`. -/
def lexArguments : Nat → List Char → LexState → Except Unit (Bool × LexState)
  | 0, _, _ => .error ()
  | fuel + 1, input, st =>
    match lexExpression fuel input st with
    | .error e => .error e
    | .ok (false, st1) => .ok (false, st1)
    | .ok (true, st1) => argumentsLoop fuel input st1

end

/-- Fuel budget for the lang lexer (same argument as for the calc lexer). -/
def langFuel (n : Nat) : Nat := 8 * n + 16

/-- Run the lang lexer the way the source's own test harness does
(`lexer._lex_expression()` on a fresh `Lexer`). -/
def runLexer (input : List Char) : Except Unit (Bool × LexState) :=
  lexExpression (langFuel input.length) input ⟨0, []⟩

/-- AST of `lang/lexer.py`: the dataclasses `ExprInteger`, `ExprVariable`,
`ExprBinary`, `ExprInvoke`.  `ExprInvoke.arguments` is an `Option` because the
unfinished `Parser.parse_arguments` returns `None`. -/
inductive Expr where
  | ExprInteger (offset : Nat) (value : Nat)
  | ExprVariable (offset : Nat) (name : List Char)
  | ExprBinary (offset : Nat) (operator : List Char) (lhs : Expr) (rhs : Expr)
  | ExprInvoke (offset : Nat) (name : List Char) (arguments : Option (List Expr))

/-- Failure modes of the Python parser: `self.operators[-1]` / `pop` on an
empty list (`IndexError`), the `assert` statements (`AssertionError`), the
`raise NotImplementedError` fall-through, and a `PRECEDENCE[...]` lookup of an
unknown key (`KeyError`). -/
inductive ParseErr where
  | indexError
  | assertionError
  | notImplementedError
  | keyError
deriving DecidableEq, Repr

/-- Embedding of the module-level `PRECEDENCE` table of `lang/lexer.py`;
`none` models a `KeyError`. -/
def PRECEDENCE (s : List Char) : Option Nat :=
  if s = ['+'] then some 1
  else if s = ['-'] then some 1
  else if s = ['*'] then some 2
  else if s = ['/'] then some 2
  else if s = ['('] then some 0
  else none

/-- Embedding of Python `int()` on the digit strings that integer tokens carry. -/
def intOfValue (l : List Char) : Nat :=
  l.foldl (fun a c => 10 * a + (c.toNat - 48)) 0

/-- Embedding of `Parser.apply`: assert the token is an infix operator, pop
`rhs` then `lhs`, and push a `BinaryOp` node carrying the operator token's
offset.  Stacks are lists with the top at the head. -/
def applyOp (operands : List Expr) (token : Token) : Except ParseErr (List Expr) :=
  if token.category ≠ some Category.INFIX then .error .assertionError
  else
    match operands with
    | rhs :: lhs :: rest => .ok (.ExprBinary token.offset token.value lhs rhs :: rest)
    | _ => .error .indexError

/-- Embedding of `Parser.parse_arguments`, whose body is `pass  # TODO`:
it returns `None` irrespective of the token stream. -/
def parseArguments : Option (List Expr) := none

/-- Embedding of the `Close` handling of `parse_expression`: pop and apply
operators until the `Open` marker, then discard the marker; an empty operator
stack raises `IndexError` (from `self.operators[-1]`). -/
def popUntilOpen (operands : List Expr) :
    List Token → Except ParseErr (List Expr × List Token)
  | [] => .error .indexError
  | op :: rest =>
    if op.category = some Category.OPEN then .ok (operands, rest)
    else
      match applyOp operands op with
      | .error e => .error e
      | .ok operands1 => popUntilOpen operands1 rest

/-- Embedding of the `Infix` handling of `parse_expression`: while the
operator stack is nonempty and the top operator's precedence is greater or
equal to the incoming one, pop and apply. -/
def popGePrec (tokenValue : List Char) (operands : List Expr) :
    List Token → Except ParseErr (List Expr × List Token)
  | [] => .ok (operands, [])
  | op :: rest =>
    match PRECEDENCE op.value with
    | none => .error .keyError
    | some ptop =>
      match PRECEDENCE tokenValue with
      | none => .error .keyError
      | some ptok =>
        if ptok ≤ ptop then
          match applyOp operands op with
          | .error e => .error e
          | .ok operands1 => popGePrec tokenValue operands1 rest
        else .ok (operands, op :: rest)

/-- Embedding of the final `while len(self.operators) > 0` loop of
`parse_expression`. -/
def applyAll (operands : List Expr) : List Token → Except ParseErr (List Expr)
  | [] => .ok operands
  | op :: rest =>
    match applyOp operands op with
    | .error e => .error e
    | .ok operands1 => applyAll operands1 rest

/-- Embedding of the main token loop of `Parser.parse_expression`.  Categories
with no `if` branch in the source (`PREFIX`, `POSTFIX`, `COMMA`, and the
`None` placeholder) fall through to `raise NotImplementedError`. -/
def parseLoop : List Token → List Expr → List Token →
    Except ParseErr (List Expr × List Token)
  | [], operands, operators => .ok (operands, operators)
  | token :: rest, operands, operators =>
    match token.category with
    | some Category.INTEGER =>
      parseLoop rest (.ExprInteger token.offset (intOfValue token.value) :: operands) operators
    | some Category.VARIABLE =>
      parseLoop rest (.ExprVariable token.offset token.value :: operands) operators
    | some Category.INVOKE =>
      parseLoop rest (.ExprInvoke token.offset token.value parseArguments :: operands) operators
    | some Category.OPEN => parseLoop rest operands (token :: operators)
    | some Category.CLOSE =>
      match popUntilOpen operands operators with
      | .error e => .error e
      | .ok (operands1, operators1) => parseLoop rest operands1 operators1
    | some Category.INFIX =>
      match popGePrec token.value operands operators with
      | .error e => .error e
      | .ok (operands1, operators1) => parseLoop rest operands1 (token :: operators1)
    | _ => .error .notImplementedError

/-- Embedding of `Parser.parse_expression`: run the token loop from empty
stacks, apply the remaining operators, assert exactly one operand remains and
return it. -/
def parseExpression (tokens : List Token) : Except ParseErr Expr :=
  match parseLoop tokens [] [] with
  | .error e => .error e
  | .ok (operands, operators) =>
    match applyAll operands operators with
    | .error e => .error e
    | .ok [e] => .ok e
    | .ok _ => .error .assertionError

end Lang

namespace Calc

/-- Well-formedness of a single emitted calc token: its text is the exact
substring of the input it spans, an `INTEGER` token is a nonempty digit run,
and a `VARIABLE` token is a nonempty identifier-character run that does not
start with a digit (the integer rule is tried first and had failed). -/
def TokWF (input : List Char) (t : Token) : Prop :=
  (input.drop t.offset).take t.value.length = t.value ∧
  (t.category = some Category.INTEGER →
    t.value ≠ [] ∧ ∀ c ∈ t.value, isDigit c = true) ∧
  (t.category = some Category.VARIABLE →
    t.value ≠ [] ∧ (∀ c ∈ t.value, isIdentChar c = true) ∧
      ∀ c, t.value.head? = some c → isDigit c = false)

/-- The lexer-state invariant: every token in the output is well formed. -/
def Inv (input : List Char) (st : LexState) : Prop :=
  ∀ t ∈ st.output, TokWF input t

end Calc

/-! Helper lemmas about the character classes and the primitive matchers. -/

theorem isSpaceTab_iff {c : Char} : isSpaceTab c = true ↔ c = ' ' ∨ c = '\t' := by
  simp [isSpaceTab]

theorem digit_not_spaceTab {c : Char} (h : isDigit c = true) : isSpaceTab c = false := by
  cases hst : isSpaceTab c
  · rfl
  · rcases isSpaceTab_iff.mp hst with rfl | rfl
    · exact absurd h (by decide)
    · exact absurd h (by decide)

theorem identChar_not_spaceTab {c : Char} (h : isIdentChar c = true) :
    isSpaceTab c = false := by
  cases hst : isSpaceTab c
  · rfl
  · rcases isSpaceTab_iff.mp hst with rfl | rfl
    · exact absurd h (by decide)
    · exact absurd h (by decide)

theorem digit_ne_char {c d : Char} (h : isDigit c = true) (hd : isDigit d = false) :
    c ≠ d := by
  rintro rfl
  rw [h] at hd
  exact Bool.noConfusion hd

theorem identChar_ne_char {c d : Char} (h : isIdentChar c = true)
    (hd : isIdentChar d = false) : c ≠ d := by
  rintro rfl
  rw [h] at hd
  exact Bool.noConfusion hd

theorem startsWith_take {p : List Char} : ∀ {l : List Char},
    startsWith l p = true → l.take p.length = p := by
  induction p with
  | nil => intro l _; rfl
  | cons b bs ih =>
    intro l h
    cases l with
    | nil => exact absurd h (by simp [startsWith])
    | cons a as =>
      rw [startsWith, Bool.and_eq_true, beq_iff_eq] at h
      rw [List.length_cons, List.take_succ_cons, h.1, ih h.2]

theorem startsWith_single_false {l : List Char} {c : Char}
    (h : ∀ d, l.head? = some d → d ≠ c) : startsWith l [c] = false := by
  cases l with
  | nil => rfl
  | cons a as =>
    rw [startsWith, startsWith, Bool.and_true]
    exact beq_eq_false_iff_ne.mpr (h a rfl)

theorem take_takeWhile (p : Char → Bool) : ∀ l : List Char,
    l.take (l.takeWhile p).length = l.takeWhile p := by
  intro l
  induction l with
  | nil => rfl
  | cons a as ih =>
    cases hp : p a
    · rw [List.takeWhile_cons, hp]
      simp
    · rw [List.takeWhile_cons, hp, if_pos rfl, List.length_cons, List.take_succ_cons, ih]

theorem mem_takeWhile_p {p : Char → Bool} : ∀ {l : List Char}, ∀ c ∈ l.takeWhile p,
    p c = true := by
  intro l
  induction l with
  | nil => intro c hc; cases hc
  | cons a as ih =>
    intro c hc
    rw [List.takeWhile_cons] at hc
    cases hp : p a
    · rw [hp] at hc; cases hc
    · rw [hp] at hc
      rcases List.mem_cons.mp hc with rfl | hc
      · exact hp
      · exact ih c hc

theorem takeWhile_eq_self {p : Char → Bool} : ∀ {l : List Char},
    (∀ c ∈ l, p c = true) → l.takeWhile p = l := by
  intro l
  induction l with
  | nil => intro _; rfl
  | cons a as ih =>
    intro h
    rw [List.takeWhile_cons, h a (List.mem_cons_self a as), if_pos rfl,
      ih fun c hc => h c (List.mem_cons_of_mem a hc)]

theorem takeWhile_head_false {p : Char → Bool} {l : List Char}
    (h : ∀ c, l.head? = some c → p c = false) : l.takeWhile p = [] := by
  cases l with
  | nil => rfl
  | cons a as =>
    rw [List.takeWhile_cons, h a rfl]
    simp

/-! At-end and head-mismatch behaviour of the calc primitive matchers. -/

theorem matchTok_single_false (input : List Char) (c : Char) (cat : Option Calc.Category)
    (st : Calc.LexState) (h : ∀ d, (input.drop st.cursor).head? = some d → d ≠ c) :
    Calc.matchTok input [c] cat st = (false, st) := by
  rw [Calc.matchTok, startsWith_single_false h, if_neg (by simp)]

theorem regexTok_head_false (input : List Char) (p : Char → Bool)
    (cat : Option Calc.Category) (st : Calc.LexState)
    (h : ∀ c, (input.drop st.cursor).head? = some c → p c = false) :
    Calc.regexTok input p cat st = (false, st) := by
  rw [Calc.regexTok]
  simp [takeWhile_head_false h]

theorem regexTok_all (input : List Char) (p : Char → Bool) (cat : Option Calc.Category)
    (st : Calc.LexState) (hne : input.drop st.cursor ≠ [])
    (hall : ∀ c ∈ input.drop st.cursor, p c = true) :
    Calc.regexTok input p cat st =
      (true, ⟨st.cursor + (input.drop st.cursor).length,
        st.output ++ [⟨st.cursor, cat, input.drop st.cursor⟩]⟩) := by
  rw [Calc.regexTok]
  simp only [takeWhile_eq_self hall, if_neg hne]

theorem matchTok_at_end {input s : List Char} {c : Char} {cat : Option Calc.Category}
    {st : Calc.LexState} (h : input.length ≤ st.cursor) :
    Calc.matchTok input (c :: s) cat st = (false, st) := by
  rw [Calc.matchTok, List.drop_eq_nil_of_le h]
  simp [startsWith]

theorem regexTok_at_end {input : List Char} {p : Char → Bool} {cat : Option Calc.Category}
    {st : Calc.LexState} (h : input.length ≤ st.cursor) :
    Calc.regexTok input p cat st = (false, st) := by
  rw [Calc.regexTok, List.drop_eq_nil_of_le h]
  simp

theorem lexWhitespace_at_end {input : List Char} {st : Calc.LexState}
    (h : input.length ≤ st.cursor) : Calc.lexWhitespace input st = (false, st) := by
  rw [Calc.lexWhitespace, regexTok_at_end h]

theorem prefixLoop_stop {fuel : Nat} {input : List Char} {st : Calc.LexState}
    (h : Calc.lexPrefixOp input st = (false, st)) :
    Calc.prefixLoop (fuel + 1) input st = st := by
  rw [Calc.prefixLoop, h]

theorem lexValue_at_end {fuel : Nat} {input : List Char} {st : Calc.LexState}
    (h : input.length ≤ st.cursor) :
    Calc.lexValue (fuel + 1) input st = .ok (false, st) := by
  rw [Calc.lexValue, matchTok_at_end h, regexTok_at_end h, regexTok_at_end h,
    regexTok_at_end h]

theorem lexTerm_at_end {fuel : Nat} {input : List Char} {st : Calc.LexState}
    (h : input.length ≤ st.cursor) :
    Calc.lexTerm (fuel + 2) input st = .ok (false, st) := by
  rw [Calc.lexTerm]
  rw [prefixLoop_stop (matchTok_at_end h), lexWhitespace_at_end h]
  rw [lexValue_at_end h]

theorem lexInfixOp_at_end {input : List Char} {st : Calc.LexState}
    (h : input.length ≤ st.cursor) : Calc.lexInfixOp input st = (false, st) := by
  rw [Calc.lexInfixOp]
  simp only [matchTok_at_end h]

theorem infixLoop_at_end {fuel : Nat} {input : List Char} {st : Calc.LexState}
    (h : input.length ≤ st.cursor) :
    Calc.infixLoop (fuel + 1) input st = .ok (true, st) := by
  rw [Calc.infixLoop, lexInfixOp_at_end h]

/-! Head-of-input helpers used to drive symbolic runs of the lexer. -/

theorem head_false_of_cons {p : Char → Bool} {a : Char} {l : List Char}
    (h : p a = false) : ∀ c, (a :: l).head? = some c → p c = false := by
  intro c hc
  injection hc with hc
  subst hc
  exact h

theorem head_ne_of_cons {a c : Char} {l : List Char} (h : a ≠ c) :
    ∀ d, (a :: l).head? = some d → d ≠ c := by
  intro d hd
  injection hd with hd
  subst hd
  exact h

theorem regexTok_eq_false {input : List Char} {p : Char → Bool}
    {cat : Option Calc.Category} {st st1 : Calc.LexState}
    (h : Calc.regexTok input p cat st = (false, st1)) :
    (input.drop st.cursor).takeWhile p = [] ∧ st1 = st := by
  rw [Calc.regexTok] at h
  by_cases hm : (input.drop st.cursor).takeWhile p = []
  · rw [if_pos hm] at h
    injection h with _ h2
    exact ⟨hm, h2.symm⟩
  · rw [if_neg hm] at h
    injection h with h1
    exact Bool.noConfusion h1

/-! Invariant preservation by the primitive lexer operations. -/

theorem Inv_matchTok {input : List Char} (s : List Char) (cat : Option Calc.Category)
    {st : Calc.LexState} (hInv : Calc.Inv input st)
    (h1 : cat ≠ some Calc.Category.INTEGER) (h2 : cat ≠ some Calc.Category.VARIABLE) :
    Calc.Inv input (Calc.matchTok input s cat st).2 := by
  rw [Calc.matchTok]
  by_cases hs : startsWith (input.drop st.cursor) s = true
  · rw [if_pos hs]
    intro u hu
    rcases List.mem_append.mp hu with hu | hu
    · exact hInv u hu
    · rw [List.mem_singleton] at hu
      subst hu
      exact ⟨startsWith_take hs, fun hc => absurd hc h1, fun hc => absurd hc h2⟩
  · rw [if_neg hs]
    exact hInv

theorem Inv_regexTok_notvar {input : List Char} (p : Char → Bool)
    (cat : Option Calc.Category) {st : Calc.LexState} (hInv : Calc.Inv input st)
    (h1 : cat = some Calc.Category.INTEGER → p = isDigit)
    (h2 : cat ≠ some Calc.Category.VARIABLE) :
    Calc.Inv input (Calc.regexTok input p cat st).2 := by
  rw [Calc.regexTok]
  by_cases hm : (input.drop st.cursor).takeWhile p = []
  · rw [if_pos hm]
    exact hInv
  · rw [if_neg hm]
    intro u hu
    rcases List.mem_append.mp hu with hu | hu
    · exact hInv u hu
    · rw [List.mem_singleton] at hu
      subst hu
      refine ⟨take_takeWhile p _, ?_, fun hc => absurd hc h2⟩
      intro hc
      have hp := h1 hc
      subst hp
      exact ⟨hm, fun c hcm => mem_takeWhile_p c hcm⟩

theorem Inv_regexTok_var {input : List Char} {st : Calc.LexState}
    (hInv : Calc.Inv input st)
    (hd : (input.drop st.cursor).takeWhile isDigit = []) :
    Calc.Inv input (Calc.regexTok input isIdentChar (some Calc.Category.VARIABLE) st).2 := by
  rw [Calc.regexTok]
  by_cases hm : (input.drop st.cursor).takeWhile isIdentChar = []
  · rw [if_pos hm]
    exact hInv
  · rw [if_neg hm]
    intro u hu
    rcases List.mem_append.mp hu with hu | hu
    · exact hInv u hu
    · rw [List.mem_singleton] at hu
      subst hu
      refine ⟨take_takeWhile _ _,
        fun hc => Calc.Category.noConfusion (Option.some.inj hc),
        fun _ => ⟨hm, fun c hcm => mem_takeWhile_p c hcm, ?_⟩⟩
      intro c hc
      cases hL : input.drop st.cursor with
      | nil => rw [hL] at hm; exact absurd rfl hm
      | cons a L =>
        rw [hL] at hc hd
        rw [List.takeWhile_cons] at hc
        cases hia : isIdentChar a
        · rw [hia] at hc
          simp at hc
        · rw [hia, if_pos rfl] at hc
          injection hc with hc
          subst hc
          rw [List.takeWhile_cons] at hd
          cases hda : isDigit a
          · rfl
          · rw [hda, if_pos rfl] at hd
            exact List.noConfusion hd

theorem lexWhitespace_output (input : List Char) (st : Calc.LexState) :
    ((Calc.lexWhitespace input st).2).output = st.output := by
  rw [Calc.lexWhitespace, Calc.regexTok]
  by_cases hm : (input.drop st.cursor).takeWhile isSpaceTab = []
  · rw [if_pos hm]
  · rw [if_neg hm]
    exact List.dropLast_concat

theorem Inv_lexWhitespace {input : List Char} {st : Calc.LexState}
    (hInv : Calc.Inv input st) : Calc.Inv input (Calc.lexWhitespace input st).2 :=
  fun u hu => hInv u (lexWhitespace_output input st ▸ hu)

theorem Inv_lexPrefixOp {input : List Char} {st : Calc.LexState}
    (hInv : Calc.Inv input st) : Calc.Inv input (Calc.lexPrefixOp input st).2 :=
  Inv_matchTok ['-'] (some Calc.Category.PREFIX) hInv (by decide) (by decide)

theorem Inv_lexInfixOp {input : List Char} {st : Calc.LexState}
    (hInv : Calc.Inv input st) : Calc.Inv input (Calc.lexInfixOp input st).2 := by
  rw [Calc.lexInfixOp]
  split
  case _ st1 heq =>
    have hx := Inv_matchTok ['+'] (some Calc.Category.INFIX) hInv
      (by decide) (by decide)
    rw [heq] at hx
    exact hx
  case _ =>
    split
    case _ st1 heq =>
      have hx := Inv_matchTok ['-'] (some Calc.Category.INFIX) hInv
        (by decide) (by decide)
      rw [heq] at hx
      exact hx
    case _ =>
      split
      case _ st1 heq =>
        have hx := Inv_matchTok ['*'] (some Calc.Category.INFIX) hInv
          (by decide) (by decide)
        rw [heq] at hx
        exact hx
      case _ =>
        split
        case _ st1 heq =>
          have hx := Inv_matchTok ['/'] (some Calc.Category.INFIX) hInv
            (by decide) (by decide)
          rw [heq] at hx
          exact hx
        case _ =>
          exact Inv_matchTok ['='] (some Calc.Category.INFIX) hInv (by decide) (by decide)

/-- Every run of the calc lexer preserves the token well-formedness
invariant: whenever a lexer routine returns (rather than raising), every
token in the resulting output is well formed.  Proved for all seven routines
simultaneously by induction on the fuel. -/
theorem calc_inv_all : ∀ fuel : Nat, ∀ input : List Char, ∀ st : Calc.LexState,
    Calc.Inv input st →
    (∀ b st', Calc.lexExpression fuel input st = .ok (b, st') → Calc.Inv input st') ∧
    (∀ b st', Calc.lexTerm fuel input st = .ok (b, st') → Calc.Inv input st') ∧
    (∀ b st', Calc.lexValue fuel input st = .ok (b, st') → Calc.Inv input st') ∧
    (∀ b st', Calc.lexArguments fuel input st = .ok (b, st') → Calc.Inv input st') ∧
    (∀ b st', Calc.infixLoop fuel input st = .ok (b, st') → Calc.Inv input st') ∧
    (∀ b st', Calc.argumentsLoop fuel input st = .ok (b, st') → Calc.Inv input st') ∧
    Calc.Inv input (Calc.prefixLoop fuel input st) := by
  intro fuel
  induction fuel with
  | zero =>
    intro input st hInv
    exact ⟨fun b st' h => Except.noConfusion h, fun b st' h => Except.noConfusion h,
      fun b st' h => Except.noConfusion h, fun b st' h => Except.noConfusion h,
      fun b st' h => Except.noConfusion h, fun b st' h => Except.noConfusion h, hInv⟩
  | succ fuel ih =>
    intro input st hInv
    have ihE := fun (u : Calc.LexState) (hu : Calc.Inv input u) => (ih input u hu).1
    have ihT := fun (u : Calc.LexState) (hu : Calc.Inv input u) => (ih input u hu).2.1
    have ihV := fun (u : Calc.LexState) (hu : Calc.Inv input u) => (ih input u hu).2.2.1
    have ihA := fun (u : Calc.LexState) (hu : Calc.Inv input u) => (ih input u hu).2.2.2.1
    have ihI := fun (u : Calc.LexState) (hu : Calc.Inv input u) => (ih input u hu).2.2.2.2.1
    have ihAL := fun (u : Calc.LexState) (hu : Calc.Inv input u) => (ih input u hu).2.2.2.2.2.1
    have ihP := fun (u : Calc.LexState) (hu : Calc.Inv input u) => (ih input u hu).2.2.2.2.2.2
    refine ⟨?_, ?_, ?_, ?_, ?_, ?_, ?_⟩
    · -- lexExpression
      intro b st' h
      rw [Calc.lexExpression] at h
      split at h
      · exact Except.noConfusion h
      · rename_i st1 heq
        injection h with h
        injection h with h1 h2
        subst h2
        exact ihT _ (Inv_lexWhitespace hInv) _ _ heq
      · rename_i st1 heq
        exact ihI _ (Inv_lexWhitespace (ihT _ (Inv_lexWhitespace hInv) _ _ heq)) _ _ h
    · -- lexTerm
      intro b st' h
      rw [Calc.lexTerm] at h
      split at h
      · exact Except.noConfusion h
      · rename_i st2 heq
        injection h with h
        injection h with h1 h2
        subst h2
        exact hInv
      · rename_i st3 heq
        injection h with h
        injection h with h1 h2
        subst h2
        exact ihV _ (Inv_lexWhitespace (ihP st hInv)) _ _ heq
    · -- lexValue
      intro b st' h
      rw [Calc.lexValue] at h
      split at h
      · -- '(' matched
        rename_i st1 heq
        have hx := Inv_matchTok ['('] (some Calc.Category.OPEN) hInv
          (by decide) (by decide)
        rw [heq] at hx
        split at h
        · exact Except.noConfusion h
        · exact Except.noConfusion h
        · rename_i st2 heq2
          have hx2 := ihE _ hx _ _ heq2
          split at h
          · rename_i st3 heq3
            injection h with h
            injection h with h1 h2
            subst h2
            have hx3 := Inv_matchTok [')'] (some Calc.Category.CLOSE) hx2
              (by decide) (by decide)
            rw [heq3] at hx3
            exact hx3
          · exact Except.noConfusion h
      · -- '(' not matched
        split at h
        · -- integer matched
          rename_i st1 heq
          injection h with h
          injection h with h1 h2
          subst h2
          have hx := Inv_regexTok_notvar isDigit
            (some Calc.Category.INTEGER) hInv (fun _ => rfl) (by decide)
          rw [heq] at hx
          exact hx
        · -- integer not matched
          rename_i stD heqD
          have hd := (regexTok_eq_false heqD).1
          split at h
          · -- identifier matched as INVOKE attempt
            rename_i st1 heq
            have hx1 := Inv_regexTok_notvar isIdentChar
              (some Calc.Category.INVOKE) hInv
              (fun hc => absurd hc (by decide)) (by decide)
            rw [heq] at hx1
            split at h
            · rename_i bw stw heqw
              have hxw := Inv_lexWhitespace hx1
              rw [heqw] at hxw
              split at h
              · -- '(' after identifier
                rename_i st2 heq2
                have hx2 := Inv_matchTok ['('] (some Calc.Category.OPEN) hxw
                  (by decide) (by decide)
                rw [heq2] at hx2
                split at h
                · exact Except.noConfusion h
                · rename_i bA st3 heq3
                  have hx3 := ihA _ hx2 _ _ heq3
                  split at h
                  · rename_i st4 heq4
                    injection h with h
                    injection h with h1 h2
                    subst h2
                    have hx4 := Inv_matchTok [')'] (some Calc.Category.CLOSE)
                      hx3 (by decide) (by decide)
                    rw [heq4] at hx4
                    exact hx4
                  · exact Except.noConfusion h
              · -- restore and re-lex as VARIABLE
                split at h
                · rename_i st5 heq5
                  injection h with h
                  injection h with h1 h2
                  subst h2
                  have hx5 := Inv_regexTok_var hInv hd
                  rw [heq5] at hx5
                  exact hx5
                · injection h with h
                  injection h with h1 h2
                  subst h2
                  exact hInv
          · -- identifier not matched: VARIABLE rule directly
            split at h
            · rename_i st5 heq5
              injection h with h
              injection h with h1 h2
              subst h2
              have hx5 := Inv_regexTok_var hInv hd
              rw [heq5] at hx5
              exact hx5
            · injection h with h
              injection h with h1 h2
              subst h2
              exact hInv
    · -- lexArguments
      intro b st' h
      rw [Calc.lexArguments] at h
      split at h
      · exact Except.noConfusion h
      · rename_i st1 heq
        injection h with h
        injection h with h1 h2
        subst h2
        exact ihE st hInv _ _ heq
      · rename_i st1 heq
        exact ihAL _ (ihE st hInv _ _ heq) _ _ h
    · -- infixLoop
      intro b st' h
      rw [Calc.infixLoop] at h
      split at h
      · rename_i st1 heq
        have hx := Inv_lexInfixOp hInv
        rw [heq] at hx
        split at h
        · exact Except.noConfusion h
        · exact Except.noConfusion h
        · rename_i st2 heq2
          exact ihI _ (Inv_lexWhitespace (ihT _ (Inv_lexWhitespace hx) _ _ heq2)) _ _ h
      · injection h with h
        injection h with h1 h2
        subst h2
        exact hInv
    · -- argumentsLoop
      intro b st' h
      rw [Calc.argumentsLoop] at h
      split at h
      · rename_i st1 heq
        have hx := Inv_matchTok [','] (some Calc.Category.COMMA) hInv
          (by decide) (by decide)
        rw [heq] at hx
        split at h
        · exact Except.noConfusion h
        · exact Except.noConfusion h
        · rename_i st2 heq2
          exact ihAL _ (ihE _ hx _ _ heq2) _ _ h
      · injection h with h
        injection h with h1 h2
        subst h2
        exact hInv
    · -- prefixLoop
      rw [Calc.prefixLoop]
      split
      · rename_i st1 heq
        have hx := Inv_lexPrefixOp hInv
        rw [heq] at hx
        exact ihP st1 hx
      · exact hInv

/-- Re-lexing a nonempty all-digit string yields exactly one `INTEGER` token
spanning the whole string. -/
theorem lex_digits (v : List Char) (h0 : v ≠ []) (h1 : ∀ c ∈ v, isDigit c = true) :
    Calc.lex v = .ok [⟨0, some Calc.Category.INTEGER, v⟩] := by
  obtain ⟨a, l, rfl⟩ : ∃ a l, v = a :: l := by
    cases v with
    | nil => exact absurd rfl h0
    | cons a l => exact ⟨a, l, rfl⟩
  have ha : isDigit a = true := h1 a (List.mem_cons_self a l)
  have hws0 : Calc.lexWhitespace (a :: l) ⟨0, []⟩ = (false, ⟨0, []⟩) := by
    rw [Calc.lexWhitespace,
      regexTok_head_false (a :: l) isSpaceTab none ⟨0, []⟩
        (head_false_of_cons (digit_not_spaceTab ha))]
  have hpre : Calc.lexPrefixOp (a :: l) ⟨0, []⟩ = (false, ⟨0, []⟩) :=
    matchTok_single_false (a :: l) '-' (some Calc.Category.PREFIX) ⟨0, []⟩
      (head_ne_of_cons (digit_ne_char ha (by decide)))
  have hval : ∀ g, Calc.lexValue (g + 1) (a :: l) ⟨0, []⟩ =
      .ok (true, ⟨(a :: l).length, [⟨0, some Calc.Category.INTEGER, a :: l⟩]⟩) := by
    intro g
    rw [Calc.lexValue,
      matchTok_single_false (a :: l) '(' (some Calc.Category.OPEN) ⟨0, []⟩
        (head_ne_of_cons (digit_ne_char ha (by decide))),
      regexTok_all (a :: l) isDigit (some Calc.Category.INTEGER) ⟨0, []⟩
        (by simp) (by simpa using h1)]
    simp
  have hterm : ∀ g, Calc.lexTerm ((g + 1) + 1) (a :: l) ⟨0, []⟩ =
      .ok (true, ⟨(a :: l).length, [⟨0, some Calc.Category.INTEGER, a :: l⟩]⟩) := by
    intro g
    rw [Calc.lexTerm, prefixLoop_stop hpre, hws0]
    dsimp only
    rw [hval g]
  have hexpr : ∀ g, Calc.lexExpression (((g + 1) + 1) + 1) (a :: l) ⟨0, []⟩ =
      .ok (true, ⟨(a :: l).length, [⟨0, some Calc.Category.INTEGER, a :: l⟩]⟩) := by
    intro g
    rw [Calc.lexExpression, hws0]
    dsimp only
    rw [hterm g]
    dsimp only
    rw [lexWhitespace_at_end (by simp)]
    dsimp only
    rw [infixLoop_at_end (by simp)]
  obtain ⟨k, hk⟩ : ∃ k, Calc.calcFuel (a :: l).length = ((k + 1) + 1) + 1 :=
    ⟨8 * (a :: l).length + 13, by simp only [Calc.calcFuel]⟩
  rw [Calc.lex, hk, hexpr k]
  simp

/-- Re-lexing a nonempty identifier-character string that does not start with
a digit yields exactly one `VARIABLE` token spanning the whole string (the
speculative invocation attempt fails at end of input and is rolled back). -/
theorem lex_ident (v : List Char) (h0 : v ≠ []) (h1 : ∀ c ∈ v, isIdentChar c = true)
    (hhd : ∀ c, v.head? = some c → isDigit c = false) :
    Calc.lex v = .ok [⟨0, some Calc.Category.VARIABLE, v⟩] := by
  obtain ⟨a, l, rfl⟩ : ∃ a l, v = a :: l := by
    cases v with
    | nil => exact absurd rfl h0
    | cons a l => exact ⟨a, l, rfl⟩
  have ha : isIdentChar a = true := h1 a (List.mem_cons_self a l)
  have hd : isDigit a = false := hhd a rfl
  have hws0 : Calc.lexWhitespace (a :: l) ⟨0, []⟩ = (false, ⟨0, []⟩) := by
    rw [Calc.lexWhitespace,
      regexTok_head_false (a :: l) isSpaceTab none ⟨0, []⟩
        (head_false_of_cons (identChar_not_spaceTab ha))]
  have hpre : Calc.lexPrefixOp (a :: l) ⟨0, []⟩ = (false, ⟨0, []⟩) :=
    matchTok_single_false (a :: l) '-' (some Calc.Category.PREFIX) ⟨0, []⟩
      (head_ne_of_cons (identChar_ne_char ha (by decide)))
  have hval : ∀ g, Calc.lexValue (g + 1) (a :: l) ⟨0, []⟩ =
      .ok (true, ⟨(a :: l).length, [⟨0, some Calc.Category.VARIABLE, a :: l⟩]⟩) := by
    intro g
    rw [Calc.lexValue,
      matchTok_single_false (a :: l) '(' (some Calc.Category.OPEN) ⟨0, []⟩
        (head_ne_of_cons (identChar_ne_char ha (by decide))),
      regexTok_head_false (a :: l) isDigit (some Calc.Category.INTEGER) ⟨0, []⟩
        (head_false_of_cons hd),
      regexTok_all (a :: l) isIdentChar (some Calc.Category.INVOKE) ⟨0, []⟩
        (by simp) (by simpa using h1)]
    dsimp only
    rw [lexWhitespace_at_end (by simp)]
    dsimp only
    rw [matchTok_at_end (by simp)]
    dsimp only
    rw [regexTok_all (a :: l) isIdentChar (some Calc.Category.VARIABLE) ⟨0, []⟩
      (by simp) (by simpa using h1)]
    simp
  have hterm : ∀ g, Calc.lexTerm ((g + 1) + 1) (a :: l) ⟨0, []⟩ =
      .ok (true, ⟨(a :: l).length, [⟨0, some Calc.Category.VARIABLE, a :: l⟩]⟩) := by
    intro g
    rw [Calc.lexTerm, prefixLoop_stop hpre, hws0]
    dsimp only
    rw [hval g]
  have hexpr : ∀ g, Calc.lexExpression (((g + 1) + 1) + 1) (a :: l) ⟨0, []⟩ =
      .ok (true, ⟨(a :: l).length, [⟨0, some Calc.Category.VARIABLE, a :: l⟩]⟩) := by
    intro g
    rw [Calc.lexExpression, hws0]
    dsimp only
    rw [hterm g]
    dsimp only
    rw [lexWhitespace_at_end (by simp)]
    dsimp only
    rw [infixLoop_at_end (by simp)]
  obtain ⟨k, hk⟩ : ∃ k, Calc.calcFuel (a :: l).length = ((k + 1) + 1) + 1 :=
    ⟨8 * (a :: l).length + 13, by simp only [Calc.calcFuel]⟩
  rw [Calc.lex, hk, hexpr k]
  simp

/-- C1: lexing the single-identifier input `"f"` (an identifier not followed
by an opening parenthesis) returns exactly one token, a `Variable` token with
text `"f"` at offset 0; the failed speculative invocation attempt leaves no
partial or duplicate tokens in the output. -/
theorem claim_c1_lex_single_identifier :
    Calc.lex ['f'] = .ok [⟨0, some Calc.Category.VARIABLE, ['f']⟩] := rfl

/-- C2: lexing `"1-2-3"` with the lang lexer and parsing the resulting token
sequence yields the left-associated tree `(1-2)-3`, i.e.
`BinaryOp('-', BinaryOp('-', 1, 2), 3)`, not `1-(2-3)`. -/
theorem claim_c2_left_associativity :
    Lang.runLexer ['1', '-', '2', '-', '3'] =
      .ok (true, ⟨5,
        [⟨0, some Lang.Category.INTEGER, ['1']⟩, ⟨1, some Lang.Category.INFIX, ['-']⟩,
         ⟨2, some Lang.Category.INTEGER, ['2']⟩, ⟨3, some Lang.Category.INFIX, ['-']⟩,
         ⟨4, some Lang.Category.INTEGER, ['3']⟩]⟩) ∧
    Lang.parseExpression
      [⟨0, some Lang.Category.INTEGER, ['1']⟩, ⟨1, some Lang.Category.INFIX, ['-']⟩,
       ⟨2, some Lang.Category.INTEGER, ['2']⟩, ⟨3, some Lang.Category.INFIX, ['-']⟩,
       ⟨4, some Lang.Category.INTEGER, ['3']⟩] =
      .ok (.ExprBinary 3 ['-']
        (.ExprBinary 1 ['-'] (.ExprInteger 0 1) (.ExprInteger 2 2))
        (.ExprInteger 4 3)) :=
  ⟨rfl, rfl⟩

/-- C3: lex+parse respects the precedence table: `"1+2*3"` parses to
`BinaryOp('+', 1, BinaryOp('*', 2, 3))` and `"(1+2)*3"` parses to
`BinaryOp('*', BinaryOp('+', 1, 2), 3)`. -/
theorem claim_c3_precedence :
    (Lang.runLexer ['1', '+', '2', '*', '3'] =
      .ok (true, ⟨5,
        [⟨0, some Lang.Category.INTEGER, ['1']⟩, ⟨1, some Lang.Category.INFIX, ['+']⟩,
         ⟨2, some Lang.Category.INTEGER, ['2']⟩, ⟨3, some Lang.Category.INFIX, ['*']⟩,
         ⟨4, some Lang.Category.INTEGER, ['3']⟩]⟩) ∧
     Lang.parseExpression
       [⟨0, some Lang.Category.INTEGER, ['1']⟩, ⟨1, some Lang.Category.INFIX, ['+']⟩,
        ⟨2, some Lang.Category.INTEGER, ['2']⟩, ⟨3, some Lang.Category.INFIX, ['*']⟩,
        ⟨4, some Lang.Category.INTEGER, ['3']⟩] =
       .ok (.ExprBinary 1 ['+'] (.ExprInteger 0 1)
         (.ExprBinary 3 ['*'] (.ExprInteger 2 2) (.ExprInteger 4 3)))) ∧
    (Lang.runLexer ['(', '1', '+', '2', ')', '*', '3'] =
      .ok (true, ⟨7,
        [⟨0, some Lang.Category.OPEN, ['(']⟩, ⟨1, some Lang.Category.INTEGER, ['1']⟩,
         ⟨2, some Lang.Category.INFIX, ['+']⟩, ⟨3, some Lang.Category.INTEGER, ['2']⟩,
         ⟨4, some Lang.Category.CLOSE, [')']⟩, ⟨5, some Lang.Category.INFIX, ['*']⟩,
         ⟨6, some Lang.Category.INTEGER, ['3']⟩]⟩) ∧
     Lang.parseExpression
       [⟨0, some Lang.Category.OPEN, ['(']⟩, ⟨1, some Lang.Category.INTEGER, ['1']⟩,
        ⟨2, some Lang.Category.INFIX, ['+']⟩, ⟨3, some Lang.Category.INTEGER, ['2']⟩,
        ⟨4, some Lang.Category.CLOSE, [')']⟩, ⟨5, some Lang.Category.INFIX, ['*']⟩,
        ⟨6, some Lang.Category.INTEGER, ['3']⟩] =
       .ok (.ExprBinary 5 ['*']
         (.ExprBinary 2 ['+'] (.ExprInteger 1 1) (.ExprInteger 3 2))
         (.ExprInteger 6 3))) :=
  ⟨⟨rfl, rfl⟩, ⟨rfl, rfl⟩⟩

/-- C4 (code bug): the claim says every successfully lexed token sequence is
parseable, but the parser is unfinished.  The input `"-1"` lexes successfully
and completely (to a `PREFIX` and an `INTEGER` token), yet `parse_expression`
falls through every category branch on the `PREFIX` token and raises
`NotImplementedError`. -/
theorem claim_c4_valid_lex_unparseable :
    Lang.runLexer ['-', '1'] =
      .ok (true, ⟨2,
        [⟨0, some Lang.Category.PREFIX, ['-']⟩,
         ⟨1, some Lang.Category.INTEGER, ['1']⟩]⟩) ∧
    Lang.parseExpression
      [⟨0, some Lang.Category.PREFIX, ['-']⟩,
       ⟨1, some Lang.Category.INTEGER, ['1']⟩] =
      .error .notImplementedError :=
  ⟨rfl, rfl⟩

/-- C5 (code bug): the claim says an `Invoke` token makes the parser
recursively parse the argument list into an ordered sequence of sub-trees, but
`Parser.parse_arguments` is `pass  # TODO` and returns `None`: the `Invoke`
node is pushed with `arguments = None`, the argument tokens stay in the
stream, and parsing the lexed tokens of `"f(1)"` then crashes with an
`IndexError` on the unmatched `Close` token. -/
theorem claim_c5_invoke_arguments_todo :
    Lang.runLexer ['f', '(', '1', ')'] =
      .ok (true, ⟨4,
        [⟨0, some Lang.Category.INVOKE, ['f']⟩,
         ⟨2, some Lang.Category.INTEGER, ['1']⟩,
         ⟨3, some Lang.Category.CLOSE, [')']⟩]⟩) ∧
    Lang.parseLoop [⟨0, some Lang.Category.INVOKE, ['f']⟩] [] [] =
      .ok ([.ExprInvoke 0 ['f'] none], []) ∧
    Lang.parseExpression
      [⟨0, some Lang.Category.INVOKE, ['f']⟩,
       ⟨2, some Lang.Category.INTEGER, ['1']⟩,
       ⟨3, some Lang.Category.CLOSE, [')']⟩] =
      .error .indexError :=
  ⟨rfl, rfl, rfl⟩

/-- C6 (code bug): the claim says an emitted token is never mutated and any
re-tagging happens by discard-and-reconstruct.  In the lang lexer, lexing
`"f"` first emits the identifier token with category `None` (the emission is
the `_regex` call embedded by `regexTok`), and `_lex_value` then assigns
`VARIABLE` to the `category` field of that already-emitted token in place:
the final output holds the same token record with a different category. -/
theorem claim_c6_in_place_category_mutation :
    Lang.regexTok ['f'] isIdentChar none ⟨0, []⟩ =
      (true, ⟨1, [⟨0, none, ['f']⟩]⟩) ∧
    Lang.lexValue 5 ['f'] ⟨0, []⟩ =
      .ok (true, ⟨1, [⟨0, some Lang.Category.VARIABLE, ['f']⟩]⟩) :=
  ⟨rfl, rfl⟩

/-- C7 counterexample: lexing `"f(1,)"` does fail with an expected-expression
error, but its offset is 3 — the offset of the comma itself — not 4, the
position after the comma, as the claim states. -/
theorem claim_c7_counterexample :
    Calc.lex ['f', '(', '1', ',', ')'] = .error ⟨3, "expected expression"⟩ ∧
    (3 : Nat) ≠ 4 :=
  ⟨rfl, by decide⟩

/-- C7 as amended: lexing `"f(1,)"` — an argument list with a dangling
comma — fails with an expected-expression error whose offset is the offset of
the comma token (position 3), the comma not being treated as introducing an
empty argument. -/
theorem claim_c7_dangling_comma :
    Calc.lex ['f', '(', '1', ',', ')'] = .error ⟨3, "expected expression"⟩ := rfl

/-- C8: lexing `"(1+2"` fails with a missing-closing-parenthesis error whose
offset equals the position of the opening parenthesis (offset 0). -/
theorem claim_c8_missing_close_paren :
    Calc.lex ['(', '1', '+', '2'] = .error ⟨0, "missing closing parenthesis"⟩ := rfl

/-- C10: for the empty input string, and for any input consisting only of
spaces and tabs, the calc `lex` does not raise: it returns the empty token
sequence, even though no expression was matched. -/
theorem claim_c10_whitespace_only_lex (input : List Char)
    (h : ∀ c ∈ input, isSpaceTab c = true) : Calc.lex input = .ok [] := by
  rcases input with _ | ⟨a, l⟩
  · rfl
  · have hws : Calc.lexWhitespace (a :: l) ⟨0, []⟩ = (true, ⟨(a :: l).length, []⟩) := by
      rw [Calc.lexWhitespace, regexTok_all (a :: l) isSpaceTab none ⟨0, []⟩
        (by simp) (by simpa using h)]
      simp
    obtain ⟨k, hk⟩ : ∃ k, Calc.calcFuel (a :: l).length = (k + 2) + 1 :=
      ⟨8 * (a :: l).length + 13, by simp only [Calc.calcFuel]⟩
    rw [Calc.lex, hk, Calc.lexExpression, hws]
    dsimp only
    rw [lexTerm_at_end (le_refl (a :: l).length)]
    simp

/-- Witness for C10 at the concrete whitespace-only input `" \t"`. -/
theorem claim_c10_whitespace_only_lex_witness : Calc.lex [' ', '\t'] = .ok [] :=
  claim_c10_whitespace_only_lex [' ', '\t'] (by decide)

/-- C9 counterexample: `"1+2"` lexes successfully and its output contains the
`Infix` token `+` spanning the substring `"+"` at offset 1, but lexing that
substring fails with an invalid-syntax error — so not every token of a
successful lex re-lexes to itself. -/
theorem claim_c9_counterexample :
    Calc.lex ['1', '+', '2'] =
      .ok [⟨0, some Calc.Category.INTEGER, ['1']⟩,
           ⟨1, some Calc.Category.INFIX, ['+']⟩,
           ⟨2, some Calc.Category.INTEGER, ['2']⟩] ∧
    Calc.lex ['+'] = .error ⟨0, "invalid syntax"⟩ :=
  ⟨rfl, rfl⟩

/-- C9 as amended: for every `Integer` or `Variable` token `t` in the output
of a successful lex, lexing the exact substring of the input spanned by `t`
(from `t.offset`, of length equal to `t`'s text) succeeds and yields exactly
that token again, at offset 0. -/
theorem claim_c9_roundtrip_integer_variable (input : List Char)
    (ts : List Calc.Token) (t : Calc.Token)
    (hlex : Calc.lex input = .ok ts) (ht : t ∈ ts)
    (hcat : t.category = some Calc.Category.INTEGER ∨
      t.category = some Calc.Category.VARIABLE) :
    Calc.lex ((input.drop t.offset).take t.value.length) =
      .ok [⟨0, t.category, t.value⟩] := by
  have hwf : Calc.TokWF input t := by
    rw [Calc.lex] at hlex
    split at hlex
    · exact Except.noConfusion hlex
    · rename_i b st heq
      split at hlex
      · exact Except.noConfusion hlex
      · injection hlex with hlex
        have hInv := (calc_inv_all (Calc.calcFuel input.length) input ⟨0, []⟩
          (fun u hu => absurd hu (List.not_mem_nil u))).1 b st heq
        rw [← hlex] at ht
        exact hInv t ht
  obtain ⟨hsub, hint, hvar⟩ := hwf
  rw [hsub]
  rcases hcat with hcat | hcat
  · obtain ⟨hne, hall⟩ := hint hcat
    rw [hcat]
    exact lex_digits t.value hne hall
  · obtain ⟨hne, hall, hhd⟩ := hvar hcat
    rw [hcat]
    exact lex_ident t.value hne hall hhd

/-- Witness for C9 as amended: the input `"ab+12"` lexes to a `Variable`, an
`Infix` and an `Integer` token; re-lexing the substring `"12"` spanned by the
`Integer` token reproduces it at offset 0. -/
theorem claim_c9_roundtrip_witness :
    Calc.lex ((['a', 'b', '+', '1', '2'].drop 3).take 2) =
      .ok [⟨0, some Calc.Category.INTEGER, ['1', '2']⟩] :=
  claim_c9_roundtrip_integer_variable ['a', 'b', '+', '1', '2']
    [⟨0, some Calc.Category.VARIABLE, ['a', 'b']⟩,
     ⟨2, some Calc.Category.INFIX, ['+']⟩,
     ⟨3, some Calc.Category.INTEGER, ['1', '2']⟩]
    ⟨3, some Calc.Category.INTEGER, ['1', '2']⟩
    rfl (by decide) (Or.inl rfl)
